import Mathlib

/-!
Shallow embedding of espnet/nets/beam_search_transducer.py (class
BeamSearchTransducer) and proofs about its search algorithms.

Scores are modelled by an arbitrary linear ordered field S (instantiated at
the rationals for concrete executions and at the reals where the semantics
of numpy logaddexp matters).  The decoder, joint network and language model
are opaque scoring oracles, as the design states: they are modelled by
functions of the data that determines their outputs, namely the label
sequence of a hypothesis and the index of the current encoder frame.  The
field logp below stands for the composite
torch.log_softmax(joint_network(enc_out_t, dec_out) / softmax_temperature),
the post-log-softmax distribution that every search algorithm consumes.
-/

namespace Espnet

/-- Hypothesis record (espnet.nets.transducer_decoder_interface.Hypothesis):
an accumulated score, a label sequence starting with the blank sentinel, and
opaque decoder / language model state handles. -/
structure Hyp (S σ Λ : Type) where
  score : S
  label_seq : List Nat
  dec_state : σ
  lm_state : Option Λ
deriving Repr

/-- NSCHypothesis: Hypothesis extended with the history of decoder output
vectors and the cached language model score vector. -/
structure NSCHyp (S σ Λ δ : Type) extends Hyp S σ Λ where
  dec_out : List δ
  lm_scores : Option (Nat → S)

/-- The BeamSearchTransducer object: configuration scalars together with the
functional abstraction of its collaborators.  dec_of and st_of give the
decoder output vector and the fresh decoder state handle produced by
decoder.score / decoder.batch_score / decoder.select_state for a hypothesis
with the given label sequence (the cache argument of the source is a pure
memoisation handle, so these calls are functions of the label sequence).
logp t d k is the log-softmaxed joint network output for encoder frame t,
decoder output d and vocabulary index k.  la models numpy.logaddexp.  The
lm_predict field models lm.predict / lm.buff_predict, returning the new LM
state handle and the LM log-probability vector. -/
structure BST (S σ Λ δ : Type) where
  beam_size : Nat
  vocab_size : Nat
  blank_id : Nat
  st_init : σ
  dec_of : List Nat → δ
  st_of : List Nat → σ
  logp : Nat → δ → Nat → S
  use_lm : Bool
  is_wordlm : Bool
  lm_initial : Λ
  lm_predict : Option Λ → List Nat → Λ × (Nat → S)
  lm_weight : S
  la : S → S → S
  max_sym_exp : Nat
  u_max : Nat
  nstep : Nat
  prefix_alpha : Nat
  score_norm : Bool
  nbest : Nat

section Helpers

variable {α β : Type}

/-- Python max(iterable, key=...) over a nonempty list b :: l: returns the
first element attaining the maximal key (later elements replace the current
best only when strictly greater). -/
def pyMax [LinearOrder β] (key : α → β) : α → List α → α
  | b, [] => b
  | b, a :: l => pyMax key (if key b < key a then a else b) l

/-- The combination max(hyps, key=...) followed by hyps.remove(max_hyp):
pops the first element with maximal key and returns it with the remaining
list; none models the ValueError raised by Python max on an empty list. -/
def popFirstMax [LinearOrder β] (key : α → β) : List α → Option (α × List α)
  | [] => none
  | a :: l =>
    match popFirstMax key l with
    | none => some (a, [])
    | some (m, l2) => if key a < key m then some (m, a :: l2) else some (a, l)

/-- Python sorted(xs, key=...): stable ascending sort by key. -/
def sortAscBy [LinearOrder β] (key : α → β) (l : List α) : List α :=
  l.mergeSort (fun a b => decide (key a ≤ key b))

/-- Python xs.sort(key=..., reverse=True) / sorted(..., reverse=True):
stable descending sort by key (ties keep their original relative order). -/
def sortDescBy [LinearOrder β] (key : α → β) (l : List α) : List α :=
  l.mergeSort (fun a b => decide (key b ≤ key a))

/-- torch.topk over the vector f 0, ..., f (n-1): the k largest entries as
(value, index) pairs, values descending, ties by lower index first. -/
def topk {S : Type} [LinearOrder S] (k n : Nat) (f : Nat → S) : List (S × Nat) :=
  (sortDescBy (fun p => p.1) ((List.range n).map (fun i => (f i, i)))).take k

/-- torch.max over the vector f 0, ..., f (n-1): the maximal value together
with the first index attaining it. -/
def argmaxN {S : Type} [LinearOrder S] (n : Nat) (f : Nat → S) : S × Nat :=
  match (List.range n).map (fun i => (f i, i)) with
  | [] => (f 0, 0)
  | a :: l => pyMax (fun p => p.1) a l

end Helpers

variable {S σ Λ δ : Type}

/-- Sort key of sort_nbest: score, or score divided by label sequence
length when score_norm is configured. -/
def nbestKey [LinearOrderedField S] (score_norm : Bool) (sc : α → S) (len : α → Nat)
    (x : α) : S :=
  if score_norm then sc x / (len x : S) else sc x

/-- BeamSearchTransducer.sort_nbest: sort hypotheses descending by score
(or by length-normalised score), then truncate to nbest. -/
def sort_nbest [LinearOrderedField S] (score_norm : Bool) (nbest : Nat)
    (sc : α → S) (len : α → Nat) (hyps : List α) : List α :=
  (sortDescBy (nbestKey score_norm sc len) hyps).take nbest

/-- Label sequence length of a hypothesis. -/
def hypLen (h : Hyp S σ Λ) : Nat := h.label_seq.length

/-- Projection of a hypothesis to its observable content. -/
def proj (h : Hyp S σ Λ) : List Nat × S := (h.label_seq, h.score)

/-- Projection of an NSC hypothesis to its observable content. -/
def projN (h : NSCHyp S σ Λ δ) : List Nat × S := (h.label_seq, h.score)

/-- One frame of greedy_search (lines 154-167).  The working state is the
single hypothesis together with the decoder output and fresh decoder state
of its last extension; the frame extends the hypothesis only when the
argmax label is not blank, in which case the score grows by the argmax
log-probability, the fresh state is adopted and the decoder is queried
again. -/
def greedyStep [LinearOrderedField S] (M : BST S σ Λ δ)
    (acc : Hyp S σ Λ × δ × σ) (t : Nat) : Hyp S σ Λ × δ × σ :=
  let mp := argmaxN M.vocab_size (M.logp t acc.2.1)
  if mp.2 ≠ M.blank_id then
    let hyp2 : Hyp S σ Λ :=
      ⟨acc.1.score + mp.1, acc.1.label_seq ++ [mp.2], acc.2.2, acc.1.lm_state⟩
    (hyp2, M.dec_of hyp2.label_seq, M.st_of hyp2.label_seq)
  else acc

/-- BeamSearchTransducer.greedy_search over T encoder frames. -/
def greedy_search [LinearOrderedField S] (M : BST S σ Λ δ) (T : Nat) :
    List (Hyp S σ Λ) :=
  let hyp0 : Hyp S σ Λ := ⟨0, [M.blank_id], M.st_init, none⟩
  [((List.range T).foldl (greedyStep M)
    (hyp0, M.dec_of hyp0.label_seq, M.st_of hyp0.label_seq)).1]

/-- The blank extension of a hypothesis (default search lines 207-214, TSD
lines 302-309, ALSD lines 425-430): label sequence copied, decoder and LM
state handles taken over unchanged, blank log-probability added to the
score. -/
def blankExtHyp (bl : S) (h : Hyp S σ Λ) [Add S] : Hyp S σ Λ :=
  ⟨h.score + bl, h.label_seq, h.dec_state, h.lm_state⟩

/-- A non-blank extension candidate as built in the default search (lines
227-234), TSD (lines 329-343) and ALSD (lines 438-452): label k appended,
decoder state replaced by the fresh handle returned for the parent by the
scoring call, LM state replaced by the fresh LM handle (and the weighted LM
score added) exactly when an LM is in use. -/
def childExtHyp [LinearOrderedField S] (M : BST S σ Λ δ) (h : Hyp S σ Λ)
    (v : S) (k : Nat) : Hyp S σ Λ :=
  let base : Hyp S σ Λ := ⟨h.score + v, h.label_seq ++ [k], M.st_of h.label_seq, h.lm_state⟩
  if M.use_lm then
    let lmr := M.lm_predict h.lm_state h.label_seq
    { base with score := base.score + M.lm_weight * lmr.2 k, lm_state := some lmr.1 }
  else base

/-- One iteration of the while loop of default_beam_search (lines 195-243):
pop the best frontier hypothesis, append its blank extension to kept, push
its beam_k best non-blank extensions back onto the frontier, and compute
the list of kept hypotheses beating the new frontier maximum (sorted
ascending by score).  Returns (new frontier, new kept, that list); none
models the ValueError of Python max on an empty list. -/
def defaultIter [LinearOrderedField S] (M : BST S σ Λ δ) (t beam_k : Nat)
    (hyps kept : List (Hyp S σ Λ)) :
    Option (List (Hyp S σ Λ) × List (Hyp S σ Λ) × List (Hyp S σ Λ)) :=
  match popFirstMax Hyp.score hyps with
  | none => none
  | some (mh, rest) =>
    let lp := M.logp t (M.dec_of mh.label_seq)
    let tk := topk beam_k (M.vocab_size - 1) (fun j => lp (j + 1))
    let kept2 := kept ++ [blankExtHyp (lp 0) mh]
    let children := tk.map (fun vk => childExtHyp M mh vk.1 (vk.2 + 1))
    let hyps2 := rest ++ children
    match popFirstMax Hyp.score hyps2 with
    | none => none
    | some (mx, _) =>
      some (hyps2, kept2,
        sortAscBy Hyp.score (kept2.filter (fun x => decide (mx.score < x.score))))

/-- The while loop of default_beam_search for one frame, with explicit
fuel: the loop breaks as soon as at least beam kept hypotheses beat the
frontier maximum, and the full list of those hypotheses becomes the new
kept set. -/
def defaultFrameLoop [LinearOrderedField S] (M : BST S σ Λ δ)
    (t beam beam_k : Nat) :
    Nat → List (Hyp S σ Λ) → List (Hyp S σ Λ) → Option (List (Hyp S σ Λ))
  | 0, _, _ => none
  | fuel + 1, hyps, kept =>
    match defaultIter M t beam_k hyps kept with
    | none => none
    | some (hyps2, kept2, q) =>
      if beam ≤ q.length then some q
      else defaultFrameLoop M t beam beam_k fuel hyps2 kept2

/-- BeamSearchTransducer.default_beam_search over T encoder frames. -/
def default_beam_search [LinearOrderedField S] (M : BST S σ Λ δ)
    (fuel T : Nat) : Option (List (Hyp S σ Λ)) :=
  let beam := min M.beam_size M.vocab_size
  let beam_k := min beam (M.vocab_size - 1)
  let init : Hyp S σ Λ := ⟨0, [M.blank_id], M.st_init, none⟩
  ((List.range T).foldlM
      (fun kept t => defaultFrameLoop M t beam beam_k fuel kept []) [init]).map
    (fun kept => sort_nbest M.score_norm M.nbest Hyp.score hypLen kept)

/-- Concrete oracle for the scenario of the spec: vocabulary size 3 with
blank 0, frame 1 log-probabilities (-0.1, -1.5, -2.3), frame 2
log-probabilities (-0.2, -1.0, -3.0), independent of the hypothesis, no
language model, beam size 2, nbest 1, score normalisation on. -/
def scenarioM : BST ℚ Unit Unit Unit :=
  { beam_size := 2
    vocab_size := 3
    blank_id := 0
    st_init := ()
    dec_of := fun _ => ()
    st_of := fun _ => ()
    logp := fun t _ k =>
      if t = 0 then (if k = 0 then -1/10 else if k = 1 then -3/2 else -23/10)
      else (if k = 0 then -1/5 else if k = 1 then -1 else -3)
    use_lm := false
    is_wordlm := false
    lm_initial := ()
    lm_predict := fun _ _ => ((), fun _ => 0)
    lm_weight := 0
    la := fun a b => max a b
    max_sym_exp := 2
    u_max := 50
    nstep := 1
    prefix_alpha := 1
    score_norm := true
    nbest := 1 }

/-- C1: in the concrete scenario (vocabulary size 3 with blank 0, two
frames with hypothesis-independent log-probabilities (-0.1, -1.5, -2.3) and
(-0.2, -1.0, -3.0), beam size 2, no LM, default score normalisation),
default_beam_search returns the blank-only hypothesis with score -3/10 as
its top-1 result. -/
theorem default_beam_search_scenario :
    (default_beam_search scenarioM 10 2).map (List.map proj) =
      some [([0], -3/10)] := by
  with_unfolding_all rfl

/-- TSD accumulator update for one hypothesis of C (lines 300-315): if the
label sequence is absent from the snapshot seq_A taken at the start of the
round, append the blank extension to A; otherwise combine the blank
extension score into the existing entry at the first matching position with
numpy logaddexp. -/
def tsdMergeOne [LinearOrderedField S] (M : BST S σ Λ δ)
    (seqA : List (List Nat)) (bl : Hyp S σ Λ → S)
    (A : List (Hyp S σ Λ)) (hyp : Hyp S σ Λ) : List (Hyp S σ Λ) :=
  if hyp.label_seq ∈ seqA then
    List.modify (fun a => { a with score := M.la a.score (hyp.score + bl hyp) })
      (seqA.indexOf hyp.label_seq) A
  else A ++ [blankExtHyp (bl hyp) hyp]

/-- TSD accumulator update for a whole round: seq_A is computed once before
iterating over C, as in the source. -/
def tsdMergeA [LinearOrderedField S] (M : BST S σ Λ δ) (t : Nat)
    (A C : List (Hyp S σ Λ)) : List (Hyp S σ Λ) :=
  C.foldl (tsdMergeOne M (A.map Hyp.label_seq)
    (fun h => M.logp t (M.dec_of h.label_seq) 0)) A

/-- One expansion round of time_sync_decoding (the body of the loop over v,
lines 281-345): merge the blank extensions of C into A, and when this is
not the last round build the set D of non-blank extensions and keep its
beam best as the next C (on the last round D stays empty, so C becomes
empty, unused). -/
def tsdRound [LinearOrderedField S] (M : BST S σ Λ δ) (t beam : Nat)
    (AC : List (Hyp S σ Λ) × List (Hyp S σ Λ)) (v : Nat) :
    List (Hyp S σ Λ) × List (Hyp S σ Λ) :=
  let A2 := tsdMergeA M t AC.1 AC.2
  let D := if v < M.max_sym_exp - 1 then
      AC.2.flatMap (fun hyp =>
        (topk beam (M.vocab_size - 1)
            (fun j => M.logp t (M.dec_of hyp.label_seq) (j + 1))).map
          (fun vk => childExtHyp M hyp vk.1 (vk.2 + 1)))
    else []
  (A2, (sortDescBy Hyp.score D).take beam)

/-- The working set B of time_sync_decoding after all T frames. -/
def tsdB [LinearOrderedField S] (M : BST S σ Λ δ) (T : Nat) :
    List (Hyp S σ Λ) :=
  let beam := min M.beam_size M.vocab_size
  let lm0 : Option Λ := if M.use_lm && !M.is_wordlm then some M.lm_initial else none
  let B0 : List (Hyp S σ Λ) := [⟨0, [M.blank_id], M.st_init, lm0⟩]
  (List.range T).foldl (fun B t =>
    let AC := (List.range M.max_sym_exp).foldl (tsdRound M t beam) ([], B)
    (sortDescBy Hyp.score AC.1).take beam) B0

/-- BeamSearchTransducer.time_sync_decoding over T encoder frames. -/
def time_sync_decoding [LinearOrderedField S] (M : BST S σ Λ δ) (T : Nat) :
    List (Hyp S σ Λ) :=
  sort_nbest M.score_norm M.nbest Hyp.score hypLen (tsdB M T)

/-- Modelled from the spec: the utility recombine_hyps imported from
espnet.nets.pytorch_backend.transducer.utils is not under src; the spec
says hypotheses with identical label sequences are merged (recombined) into
one entry whose score is the log-sum-exp of the merged scores.  Walk the
list in order, appending a hypothesis whose label sequence is new and
combining the score into the first matching entry with numpy logaddexp
otherwise. -/
def recombine_hyps [LinearOrderedField S] (M : BST S σ Λ δ)
    (hyps : List (Hyp S σ Λ)) : List (Hyp S σ Λ) :=
  hyps.foldl (fun acc hyp =>
    let seqs := acc.map Hyp.label_seq
    if hyp.label_seq ∈ seqs then
      List.modify (fun a => { a with score := M.la a.score hyp.score })
        (seqs.indexOf hyp.label_seq) acc
    else acc ++ [hyp]) []

/-- Number of iterations of the ALSD outer loop: the source computes
u_max = min(configured u_max, t_max - 1) and then runs
for i in range(t_max + u_max).  (Over the integers t_max - 1 is -1 when
t_max = 0 and the range is empty; truncated subtraction gives the same
empty range, so Nat arithmetic is faithful here.) -/
def alsdSteps (u_max_cfg t_max : Nat) : Nat := t_max + min u_max_cfg (t_max - 1)

/-- One round of align_length_sync_decoding (the body of the loop over i,
lines 384-455).  Each live hypothesis maps to the frame t = i - u + 1 where
u is its label count; hypotheses beyond the last frame are skipped.  If any
remain, every one contributes its blank extension (copied into final when
its frame is the last frame) and its beam best non-blank extensions to A,
and the new beam is the recombination of the beam best of A. -/
def alsdRound [LinearOrderedField S] (M : BST S σ Λ δ) (t_max beam : Nat)
    (Bf : List (Hyp S σ Λ) × List (Hyp S σ Λ)) (i : Nat) :
    List (Hyp S σ Λ) × List (Hyp S σ Λ) :=
  let B2 : List (Hyp S σ Λ × Int) := Bf.1.filterMap (fun hyp =>
    let u : Nat := hyp.label_seq.length - 1
    let t : Int := (i : Int) - (u : Int) + 1
    if t > (t_max : Int) - 1 then none else some (hyp, t))
  if B2.isEmpty then Bf
  else
    let A := B2.flatMap (fun ht =>
      blankExtHyp (M.logp ht.2.toNat (M.dec_of ht.1.label_seq) 0) ht.1 ::
        (topk beam (M.vocab_size - 1)
            (fun j => M.logp ht.2.toNat (M.dec_of ht.1.label_seq) (j + 1))).map
          (fun vk => childExtHyp M ht.1 vk.1 (vk.2 + 1)))
    let final2 := Bf.2 ++ (B2.filter (fun ht => ht.2 == (t_max : Int) - 1)).map
      (fun ht => blankExtHyp (M.logp ht.2.toNat (M.dec_of ht.1.label_seq) 0) ht.1)
    (recombine_hyps M ((sortDescBy Hyp.score A).take beam), final2)

/-- The (last working beam, final collection) pair after all rounds of
align_length_sync_decoding. -/
def alsdFull [LinearOrderedField S] (M : BST S σ Λ δ) (t_max : Nat) :
    List (Hyp S σ Λ) × List (Hyp S σ Λ) :=
  let beam := min M.beam_size M.vocab_size
  let lm0 : Option Λ := if M.use_lm && !M.is_wordlm then some M.lm_initial else none
  let B0 : List (Hyp S σ Λ) := [⟨0, [M.blank_id], M.st_init, lm0⟩]
  (List.range (alsdSteps M.u_max t_max)).foldl (alsdRound M t_max beam) (B0, [])

/-- BeamSearchTransducer.align_length_sync_decoding over t_max encoder
frames: rank final when it is non-empty, otherwise fall back to the last
working beam as is. -/
def align_length_sync_decoding [LinearOrderedField S] (M : BST S σ Λ δ)
    (t_max : Nat) : List (Hyp S σ Λ) :=
  let Bf := alsdFull M t_max
  if !Bf.2.isEmpty then sort_nbest M.score_norm M.nbest Hyp.score hypLen Bf.2
  else Bf.1

/-- The last decoder output vector stored in an NSC hypothesis
(hyp.dec_out[-1]). -/
def lastDecOut [Inhabited δ] (h : NSCHyp S σ Λ δ) : δ := h.dec_out.getLastD default

/-- Modelled from the spec: the utility is_prefix imported from
espnet.nets.pytorch_backend.transducer.utils is not under src; per the
spec the prefix-merging phase applies to an ordered pair where the label
sequence of the shorter hypothesis is a true prefix of the label sequence
of the longer one.  The first argument is the longer sequence. -/
def trueprefixOfB (x pref : List Nat) : Bool :=
  pref.length < x.length && pref.isPrefixOf x

/-- The cached LM score of an NSC hypothesis for label k (hyp.lm_scores[k];
only read when an LM is in use, in which case the cache is populated). -/
def nscLmScore [LinearOrderedField S] (h : NSCHyp S σ Λ δ) (k : Nat) : S :=
  match h.lm_scores with
  | some f => f k
  | none => 0

/-- NSC prefix-merge replay score (lines 538-553): the probability that the
shorter hypothesis hyp_i would have produced exactly the labels of hyp_j,
obtained from the last decoder output of hyp_i for the first extra label
and from the stored decoder output history of hyp_j for the following
ones. -/
def nscPrefScore [LinearOrderedField S] [Inhabited δ] (M : BST S σ Λ δ)
    (t : Nat) (hyp_j hyp_i : NSCHyp S σ Λ δ) : S :=
  let curr_id := hyp_j.label_seq.length
  let pref_id := hyp_i.label_seq.length
  let c0 := hyp_i.score +
    M.logp t (lastDecOut hyp_i) (hyp_j.label_seq.getD pref_id 0)
  (List.range' pref_id (curr_id - 1 - pref_id)).foldl
    (fun c k => c + M.logp t (hyp_j.dec_out.getD k default)
      (hyp_j.label_seq.getD (k + 1) 0)) c0

/-- NSC prefix-merging phase (lines 529-555) over the list already sorted
by descending label sequence length: each hypothesis hyp_j folds into its
score, via numpy logaddexp, the replay score of every later (hence not
longer) hypothesis whose label sequence is a true prefix of its own with a
length gap of at most prefix_alpha.  Scores of later hypotheses are read
before their own update, matching the iteration order of the source. -/
def nscPrefMerge [LinearOrderedField S] [Inhabited δ] (M : BST S σ Λ δ)
    (t : Nat) (hyps : List (NSCHyp S σ Λ δ)) : List (NSCHyp S σ Λ δ) :=
  hyps.enum.map (fun jh =>
    let s2 := (hyps.drop (jh.1 + 1)).foldl
      (fun s hyp_i =>
        if trueprefixOfB jh.2.label_seq hyp_i.label_seq
            && decide (jh.2.label_seq.length - hyp_i.label_seq.length ≤ M.prefix_alpha)
        then M.la s (nscPrefScore M t jh.2 hyp_i)
        else s)
      jh.2.score
    { jh.2 with score := s2 })

/-- Modelled from the spec: the utility substract imported from
espnet.nets.pytorch_backend.transducer.utils is not under src; per the
spec it removes from the sorted expansion set any hypothesis whose label
sequence duplicates one already present in the prior round set. -/
def substract (x y : List (NSCHyp S σ Λ δ)) : List (NSCHyp S σ Λ δ) :=
  let seqs := y.map (fun h => h.label_seq)
  x.filter (fun h => decide (h.label_seq ∉ seqs))

/-- NSC blank extension (lines 570-579): label sequence and decoder output
history copied, decoder and LM state handles and the LM score cache taken
over unchanged, blank log-probability added to the score. -/
def nscBlankExt [Add S] (bl : S) (h : NSCHyp S σ Λ δ) : NSCHyp S σ Λ δ :=
  { h with score := h.score + bl }

/-- NSC non-blank expansion candidate (lines 581-596): label appended and
score updated (with the cached LM score when an LM is in use); decoder and
LM state handles and histories are simply copied from the parent at this
point, to be refreshed later for the surviving candidates. -/
def nscChildExt [LinearOrderedField S] (M : BST S σ Λ δ)
    (h : NSCHyp S σ Λ δ) (v : S) (k : Nat) : NSCHyp S σ Λ δ :=
  let sc0 := h.score + v
  { h with
    score := if M.use_lm then sc0 + M.lm_weight * nscLmScore h k else sc0
    label_seq := h.label_seq ++ [k] }

/-- State refresh for a surviving V candidate (lines 622-631 and 645-653):
the fresh decoder output is appended to the history, the decoder state is
replaced by the fresh handle, and when an LM is in use the LM state handle
and score cache are replaced by the fresh prediction. -/
def nscRefresh [LinearOrderedField S] (M : BST S σ Λ δ)
    (v : NSCHyp S σ Λ δ) : NSCHyp S σ Λ δ :=
  let v2 := { v with
    dec_out := v.dec_out ++ [M.dec_of v.label_seq]
    dec_state := M.st_of v.label_seq }
  if M.use_lm then
    let lmr := M.lm_predict v.lm_state v.label_seq
    { v2 with lm_state := some lmr.1, lm_scores := some lmr.2 }
  else v2

/-- Last-round update of a surviving V candidate (lines 634-653): an extra
blank log-probability, taken at the refreshed decoder output, is added to
the score exactly when nstep is different from 1; then the state refresh is
applied as in the other rounds. -/
def nscLastUpdate [LinearOrderedField S] (M : BST S σ Λ δ) (t : Nat)
    (v : NSCHyp S σ Λ δ) : NSCHyp S σ Λ δ :=
  nscRefresh M (if M.nstep ≠ 1 then
    { v with score := v.score + M.logp t (M.dec_of v.label_seq) 0 } else v)

/-- One round of the NSC bounded-expansion loop (lines 559-653).  The state
is (hyps, S, V) where S and V accumulate across rounds: the blank
extensions of hyps are appended to S and their non-blank candidates to V;
V is then sorted, stripped of label sequences already present in hyps, and
truncated to beam; the survivors are refreshed (with the last-round blank
addition on the last round), and before the last round they become the
next hyps. -/
def nscRound [LinearOrderedField S] [Inhabited δ] (M : BST S σ Λ δ)
    (t beam beam_k : Nat)
    (st : List (NSCHyp S σ Λ δ) × List (NSCHyp S σ Λ δ) × List (NSCHyp S σ Λ δ))
    (n : Nat) :
    List (NSCHyp S σ Λ δ) × List (NSCHyp S σ Λ δ) × List (NSCHyp S σ Λ δ) :=
  let hyps := st.1
  let S2 := st.2.1 ++ hyps.map (fun h => nscBlankExt (M.logp t (lastDecOut h) 0) h)
  let V2 := st.2.2 ++ hyps.flatMap (fun h =>
    (topk beam_k (M.vocab_size - 1) (fun j => M.logp t (lastDecOut h) (j + 1))).map
      (fun vk => nscChildExt M h vk.1 (vk.2 + 1)))
  let V3 := (substract (sortDescBy (fun h => h.score) V2) hyps).take beam
  if n < M.nstep - 1 then
    let V4 := V3.map (nscRefresh M)
    (V4, S2, V4)
  else
    (hyps, S2, V3.map (nscLastUpdate M t))

/-- The kept hypothesis set of nsc_beam_search after all T frames. -/
def nscKept [LinearOrderedField S] [Inhabited δ] (M : BST S σ Λ δ)
    (T : Nat) : List (NSCHyp S σ Λ δ) :=
  let beam := min M.beam_size M.vocab_size
  let beam_k := min beam (M.vocab_size - 1)
  let lm0 := M.lm_predict none [M.blank_id]
  let kept0 : List (NSCHyp S σ Λ δ) := [{
    score := 0
    label_seq := [M.blank_id]
    dec_state := M.st_of [M.blank_id]
    lm_state := if M.use_lm then some lm0.1 else none
    dec_out := [M.dec_of [M.blank_id]]
    lm_scores := if M.use_lm then some lm0.2 else none }]
  (List.range T).foldl (fun kept t =>
    let hyps := sortDescBy (fun h => h.label_seq.length) kept
    let hyps2 := nscPrefMerge M t hyps
    let fin := (List.range M.nstep).foldl (nscRound M t beam beam_k) (hyps2, [], [])
    (sortDescBy (fun h => h.score) (fin.2.1 ++ fin.2.2)).take beam) kept0

/-- BeamSearchTransducer.nsc_beam_search over T encoder frames. -/
def nsc_beam_search [LinearOrderedField S] [Inhabited δ] (M : BST S σ Λ δ)
    (T : Nat) : List (NSCHyp S σ Λ δ) :=
  sort_nbest M.score_norm M.nbest (fun h => h.score)
    (fun h => h.label_seq.length) (nscKept M T)

/-- The five search algorithms the constructor can select. -/
inductive SearchAlg
  | greedy
  | defaultBeam
  | tsd
  | alsd
  | nsc
deriving DecidableEq, Repr

/-- The algorithm selection of BeamSearchTransducer.__init__ (lines 67-78):
a beam size of at most 1 selects greedy search before the search type is
even inspected; otherwise the four known search types select their
algorithm, and any other search type raises NotImplementedError, modelled
as an error value (the constructor fails, no object is built). -/
def selectSearchAlgorithm (beam_size : Int) (search_type : String) :
    Except Unit SearchAlg :=
  if beam_size ≤ 1 then .ok .greedy
  else if search_type = "default" then .ok .defaultBeam
  else if search_type = "tsd" then .ok .tsd
  else if search_type = "alsd" then .ok .alsd
  else if search_type = "nsc" then .ok .nsc
  else .error ()

section Sorting

variable {α β : Type}

/-- A stable descending sort by key is pairwise non-increasing on keys. -/
theorem sortDescBy_pairwise [LinearOrder β] (key : α → β) (l : List α) :
    (sortDescBy key l).Pairwise (fun a b => key b ≤ key a) := by
  have h := @List.sorted_mergeSort α (fun a b => decide (key b ≤ key a))
    (fun a b c hab hbc => by
      simp only [decide_eq_true_eq] at *
      exact le_trans hbc hab)
    (fun a b => by
      rcases le_total (key b) (key a) with h | h
      · simp [h]
      · simp [h]) l
  exact h.imp (fun hab => of_decide_eq_true hab)

/-- The N-best selector returns at most nbest hypotheses. -/
theorem sort_nbest_length {S : Type} [LinearOrderedField S] (sn : Bool)
    (nbest : Nat) (sc : α → S) (len : α → Nat) (l : List α) :
    (sort_nbest sn nbest sc len l).length ≤ nbest := by
  simp [sort_nbest]

/-- The N-best selector output is non-increasing in the configured key. -/
theorem sort_nbest_sorted {S : Type} [LinearOrderedField S] (sn : Bool)
    (nbest : Nat) (sc : α → S) (len : α → Nat) (l : List α) :
    (sort_nbest sn nbest sc len l).Pairwise
      (fun a b => nbestKey sn sc len b ≤ nbestKey sn sc len a) :=
  List.Pairwise.sublist (List.take_sublist _ _)
    (sortDescBy_pairwise (nbestKey sn sc len) l)

end Sorting

/-- Non-increasing N-best order on hypotheses, per the configuration of M:
by score, or by length-normalised score when score_norm is set. -/
def hypKeyGE [LinearOrderedField S] (M : BST S σ Λ δ) (a b : Hyp S σ Λ) : Prop :=
  nbestKey M.score_norm Hyp.score hypLen b ≤ nbestKey M.score_norm Hyp.score hypLen a

/-- Non-increasing N-best order on NSC hypotheses. -/
def nscKeyGE [LinearOrderedField S] (M : BST S σ Λ δ) (a b : NSCHyp S σ Λ δ) : Prop :=
  nbestKey M.score_norm (fun h => h.score) (fun h => h.label_seq.length) b ≤
    nbestKey M.score_norm (fun h => h.score) (fun h => h.label_seq.length) a

/-- C2 (amended): every result list produced through the N-best selector
has length at most nbest and non-increasing (normalised) scores: greedy
trivially returns a single hypothesis, and the default, TSD, NSC results
and the ALSD result with non-empty final collection are selector outputs.
The ALSD fallback with empty final returns the last working beam as is and
is excluded (see the counterexample). -/
theorem results_sorted_within_nbest (S : Type) [LinearOrderedField S]
    (σ Λ δ : Type) [Inhabited δ] (M : BST S σ Λ δ) (fuel T : Nat)
    (r : List (Hyp S σ Λ)) :
    (greedy_search M T).length = 1 ∧
    (default_beam_search M fuel T = some r →
      r.length ≤ M.nbest ∧ r.Pairwise (hypKeyGE M)) ∧
    ((time_sync_decoding M T).length ≤ M.nbest ∧
      (time_sync_decoding M T).Pairwise (hypKeyGE M)) ∧
    ((alsdFull M T).2.isEmpty = false →
      (align_length_sync_decoding M T).length ≤ M.nbest ∧
      (align_length_sync_decoding M T).Pairwise (hypKeyGE M)) ∧
    ((nsc_beam_search M T).length ≤ M.nbest ∧
      (nsc_beam_search M T).Pairwise (nscKeyGE M)) := by
  refine ⟨rfl, ?_, ⟨?_, ?_⟩, ?_, ⟨?_, ?_⟩⟩
  · intro h
    rcases Option.map_eq_some'.1 h with ⟨kept, _, hr⟩
    subst hr
    exact ⟨sort_nbest_length _ _ _ _ _, sort_nbest_sorted _ _ _ _ _⟩
  · exact sort_nbest_length _ _ _ _ _
  · exact sort_nbest_sorted _ _ _ _ _
  · intro h
    have : align_length_sync_decoding M T =
        sort_nbest M.score_norm M.nbest Hyp.score hypLen (alsdFull M T).2 := by
      simp [align_length_sync_decoding, h]
    rw [this]
    exact ⟨sort_nbest_length _ _ _ _ _, sort_nbest_sorted _ _ _ _ _⟩
  · exact sort_nbest_length _ _ _ _ _
  · exact sort_nbest_sorted _ _ _ _ _

/-- Concrete oracle in which ALSD never reaches the last frame: blank is
much less likely than the labels, so the whole beam grows one label per
round and stays on implied frame 1 out of 4 frames forever. -/
def alsdFallbackM : BST ℚ Unit Unit Unit :=
  { scenarioM with
    logp := fun _ _ k => if k = 0 then -5 else if k = 1 then -1/10 else -1/4 }

/-- C2, counterexample: with the alsdFallbackM oracle over 4 encoder
frames, the final collection of ALSD stays empty, and the returned fallback
list is the last working beam, whose length 2 exceeds the configured
nbest = 1. -/
theorem alsd_fallback_exceeds_nbest :
    (alsdFull alsdFallbackM 4).2.isEmpty = true ∧
    (align_length_sync_decoding alsdFallbackM 4).length = 2 ∧
    alsdFallbackM.nbest = 1 ∧
    ¬ ((align_length_sync_decoding alsdFallbackM 4).length ≤ alsdFallbackM.nbest) := by
  refine ⟨by with_unfolding_all rfl, by with_unfolding_all rfl, rfl, ?_⟩
  have h2 : (align_length_sync_decoding alsdFallbackM 4).length = 2 := by
    with_unfolding_all rfl
  rw [h2]
  decide

/-- C2, witness: the amended statement applied to the concrete scenario
oracle over two frames, with every hypothesis discharged there. -/
theorem results_sorted_within_nbest_witness :
    ([(⟨-3/10, [0], (), none⟩ : Hyp ℚ Unit Unit)].length ≤ scenarioM.nbest ∧
      [(⟨-3/10, [0], (), none⟩ : Hyp ℚ Unit Unit)].Pairwise (hypKeyGE scenarioM)) ∧
    (greedy_search scenarioM 2).length = 1 ∧
    (time_sync_decoding scenarioM 2).length ≤ scenarioM.nbest ∧
    (nsc_beam_search scenarioM 2).length ≤ scenarioM.nbest := by
  have h := results_sorted_within_nbest ℚ Unit Unit Unit scenarioM 10 2
    [(⟨-3/10, [0], (), none⟩ : Hyp ℚ Unit Unit)]
  exact ⟨h.2.1 (by with_unfolding_all rfl), h.1, h.2.2.1.1, h.2.2.2.2.1⟩

/-- Updating the score of one entry does not change the label sequences of
a hypothesis list. -/
theorem map_label_seq_modify (g : Hyp S σ Λ → S) (i : Nat) (A : List (Hyp S σ Λ)) :
    (List.modify (fun a => { a with score := g a }) i A).map Hyp.label_seq =
      A.map Hyp.label_seq := by
  apply List.ext_getElem?
  intro n
  simp [List.getElem?_modify]
  cases A[n]? <;> simp
  split <;> rfl

/-- Nodup invariant of the TSD accumulator fold: folding C into A keeps the
label sequences of the accumulator distinct, provided C is label-distinct
and every accumulator sequence is either in the seq_A snapshot or does not
occur in C. -/
theorem tsdMergeFold_nodup [LinearOrderedField S] (M : BST S σ Λ δ)
    (seqA : List (List Nat)) (bl : Hyp S σ Λ → S) :
    ∀ (C A : List (Hyp S σ Λ)),
      (A.map Hyp.label_seq).Nodup → (C.map Hyp.label_seq).Nodup →
      (∀ s ∈ A.map Hyp.label_seq, s ∈ seqA ∨ s ∉ C.map Hyp.label_seq) →
      ((C.foldl (tsdMergeOne M seqA bl) A).map Hyp.label_seq).Nodup := by
  intro C
  induction C with
  | nil => intro A hA _ _; simpa using hA
  | cons c C ih =>
    intro A hA hC hinv
    simp only [List.foldl_cons]
    have hC2 : (C.map Hyp.label_seq).Nodup := (List.nodup_cons.1 (by simpa using hC)).2
    have hc_nin : c.label_seq ∉ C.map Hyp.label_seq :=
      (List.nodup_cons.1 (by simpa using hC)).1
    by_cases hmem : c.label_seq ∈ seqA
    · have hmap : (tsdMergeOne M seqA bl A c).map Hyp.label_seq = A.map Hyp.label_seq := by
        simp [tsdMergeOne, hmem, map_label_seq_modify]
      apply ih
      · rw [hmap]; exact hA
      · exact hC2
      · intro s hs
        rw [hmap] at hs
        rcases hinv s hs with h | h
        · exact Or.inl h
        · right; intro hmem2; exact h (by simp [hmem2])
    · have hcA : c.label_seq ∉ A.map Hyp.label_seq := by
        intro hin
        rcases hinv _ hin with h | h
        · exact hmem h
        · exact h (by simp)
      have hmap : (tsdMergeOne M seqA bl A c).map Hyp.label_seq =
          A.map Hyp.label_seq ++ [c.label_seq] := by
        simp [tsdMergeOne, hmem, blankExtHyp]
      apply ih
      · rw [hmap]
        simp [List.nodup_append, hA, hcA]
      · exact hC2
      · intro s hs
        rw [hmap] at hs
        rcases List.mem_append.1 hs with h | h
        · rcases hinv s h with h2 | h2
          · exact Or.inl h2
          · right; intro hmem2; exact h2 (by simp [hmem2])
        · right
          have hseq : s = c.label_seq := by simpa using h
          subst hseq
          intro hmem2
          exact hc_nin (by simpa using hmem2)

/-- C3 (amended): recombination, where it happens, is a true log-sum-exp
combination.  Part one: with numpy logaddexp modelled over the reals as
log(exp a + exp b), the merged score equals that value and strictly
exceeds max a b, so it is never max.  Part two: the TSD accumulator merge
combines the blank-extension score into the first entry with the same
label sequence through la, leaving the rest of the list unchanged.  Part
three: the TSD accumulator keeps the label sequences of its working set
pairwise distinct.  The invariant does not hold for the default search,
whose kept set can retain separate entries with identical label sequences
(see the counterexample). -/
theorem recombination_logsumexp :
    (∀ (σ2 Λ2 δ2 : Type) (M : BST ℝ σ2 Λ2 δ2),
      M.la = (fun a b => Real.log (Real.exp a + Real.exp b)) →
      ∀ a b : ℝ, M.la a b = Real.log (Real.exp a + Real.exp b) ∧ max a b < M.la a b) ∧
    (∀ (S : Type) [LinearOrderedField S] (σ2 Λ2 δ2 : Type) (M : BST S σ2 Λ2 δ2)
      (seqA : List (List Nat)) (bl : Hyp S σ2 Λ2 → S) (A : List (Hyp S σ2 Λ2))
      (hyp : Hyp S σ2 Λ2),
      hyp.label_seq ∈ seqA →
      (tsdMergeOne M seqA bl A hyp)[seqA.indexOf hyp.label_seq]? =
        (A[seqA.indexOf hyp.label_seq]?).map
          (fun a => { a with score := M.la a.score (hyp.score + bl hyp) })) ∧
    (∀ (S : Type) [LinearOrderedField S] (σ2 Λ2 δ2 : Type) (M : BST S σ2 Λ2 δ2)
      (t : Nat) (A C : List (Hyp S σ2 Λ2)),
      (A.map Hyp.label_seq).Nodup → (C.map Hyp.label_seq).Nodup →
      ((tsdMergeA M t A C).map Hyp.label_seq).Nodup) := by
  refine ⟨?_, ?_, ?_⟩
  · intro σ2 Λ2 δ2 M hla a b
    refine ⟨by rw [hla], ?_⟩
    rw [hla]
    have hexp : Real.exp (max a b) < Real.exp a + Real.exp b := by
      rcases le_total a b with h | h
      · rw [max_eq_right h]; exact lt_add_of_pos_left _ (Real.exp_pos a)
      · rw [max_eq_left h]; exact lt_add_of_pos_right _ (Real.exp_pos b)
    exact (Real.lt_log_iff_exp_lt (by positivity)).2 hexp
  · intro S _ σ2 Λ2 δ2 M seqA bl A hyp hmem
    simp [tsdMergeOne, hmem, List.getElem?_modify]
  · intro S _ σ2 Λ2 δ2 M t A C hA hC
    exact tsdMergeFold_nodup M (A.map Hyp.label_seq) _ C A hA hC
      (fun s hs => Or.inl hs)

/-- Concrete oracle for the duplicate-sequence run: both frames give
log-probabilities (-0.1, -0.2, -5). -/
def dupM : BST ℚ Unit Unit Unit :=
  { scenarioM with
    logp := fun _ _ k => if k = 0 then -1/10 else if k = 1 then -1/5 else -5 }

/-- The initial blank-only hypothesis over the rationals. -/
def initHyp : Hyp ℚ Unit Unit := ⟨0, [0], (), none⟩

/-- C3, counterexample: running the first two frame loops of
default_beam_search with the dupM oracle (beam = 2 = min(beam_size,
vocab_size), beam_k = 2), the kept working set formed for the third frame
holds two separate entries with the identical label sequence [0, 1] and
score -2/5 each: default search never recombines them into one log-sum-exp
entry. -/
theorem default_search_duplicate_sequences_unmerged :
    ((defaultFrameLoop dupM 0 2 2 10 [initHyp] []).bind
        (fun k => defaultFrameLoop dupM 1 2 2 10 k [])).map (List.map proj) =
      some [([0, 1], -2/5), ([0, 1], -2/5), ([0], -1/5)] := by
  with_unfolding_all rfl

/-- C3, witness: the distinctness part of the amended statement applied to
a concrete accumulator and working set over the rationals. -/
theorem recombination_logsumexp_witness :
    ((tsdMergeA dupM 0 [initHyp]
        [initHyp, (⟨-1, [0, 1], (), none⟩ : Hyp ℚ Unit Unit)]).map
      Hyp.label_seq).Nodup := by
  exact recombination_logsumexp.2.2 ℚ Unit Unit Unit dupM 0 _ _
    (by decide) (by decide)

/-- Concrete oracle for the beam-overflow run: one frame with
log-probabilities (-0.1, -1, -1.1). -/
def overM : BST ℚ Unit Unit Unit :=
  { scenarioM with
    logp := fun _ _ k => if k = 0 then -1/10 else if k = 1 then -1 else -11/10 }

/-- C4 (amended): the per-frame loop of default_beam_search stops as soon
as the number of kept hypotheses whose score exceeds the maximum score of
the current frontier is at least beam, and the retained set is exactly all
of those hypotheses sorted ascending by score, with no truncation to beam:
after one iteration producing frontier h2, kept set k2 and qualifying list
q, the loop returns q whenever beam is at most the size of q and otherwise
continues with h2 and k2. -/
theorem default_frame_loop_stop [LinearOrderedField S] (M : BST S σ Λ δ)
    (t beam beam_k fuel : Nat) (hyps kept h2 k2 q : List (Hyp S σ Λ))
    (h : defaultIter M t beam_k hyps kept = some (h2, k2, q)) :
    ∃ mx rest, popFirstMax Hyp.score h2 = some (mx, rest) ∧
      q = sortAscBy Hyp.score (k2.filter (fun x => decide (mx.score < x.score))) ∧
      (beam ≤ q.length →
        defaultFrameLoop M t beam beam_k (fuel + 1) hyps kept = some q) ∧
      (q.length < beam →
        defaultFrameLoop M t beam beam_k (fuel + 1) hyps kept =
          defaultFrameLoop M t beam beam_k fuel h2 k2) := by
  have hloop : defaultFrameLoop M t beam beam_k (fuel + 1) hyps kept =
      if beam ≤ q.length then some q
      else defaultFrameLoop M t beam beam_k fuel h2 k2 := by
    simp only [defaultFrameLoop, h]
  simp only [defaultIter] at h
  cases hpop : popFirstMax Hyp.score hyps with
  | none => rw [hpop] at h; simp at h
  | some p =>
    rw [hpop] at h
    simp only at h
    cases hpop2 : popFirstMax Hyp.score (p.2 ++
        (topk beam_k (M.vocab_size - 1)
          (fun j => M.logp t (M.dec_of p.1.label_seq) (j + 1))).map
            (fun vk => childExtHyp M p.1 vk.1 (vk.2 + 1))) with
    | none => rw [hpop2] at h; simp at h
    | some p2 =>
      rw [hpop2] at h
      simp only [Option.some.injEq, Prod.mk.injEq] at h
      obtain ⟨e1, e2, e3⟩ := h
      refine ⟨p2.1, p2.2, ?_, ?_, ?_, ?_⟩
      · rw [← e1]; rw [hpop2]
      · rw [← e3, ← e2]
      · intro hq; rw [hloop, if_pos hq]
      · intro hq; rw [hloop, if_neg (by omega)]

/-- C4, counterexample: with the overM oracle, one frame of
default_beam_search with beam = 2 = min(beam_size, vocab_size) retains a
kept set of three hypotheses: the loop broke at a point where three kept
hypotheses beat the frontier maximum (the count jumped past beam), and the
set was not pruned to beam. -/
theorem default_frame_retained_exceeds_beam :
    (defaultFrameLoop overM 0 2 2 10 [initHyp] []).map (List.map proj) =
      some [([0, 2], -6/5), ([0, 1], -11/10), ([0], -1/10)] ∧
    min overM.beam_size overM.vocab_size = 2 ∧
    (defaultFrameLoop overM 0 2 2 10 [initHyp] []).map List.length = some 3 ∧
    ¬ ((3 : Nat) ≤ 2) := by
  refine ⟨by with_unfolding_all rfl, by with_unfolding_all rfl,
    by with_unfolding_all rfl, by decide⟩

/-- C4, witness: the loop characterisation applied to the first iteration
of the overM frame, with the iteration equation discharged by computation. -/
theorem default_frame_loop_stop_witness :
    ∃ mx rest, popFirstMax Hyp.score
        [(⟨-1, [0, 1], (), none⟩ : Hyp ℚ Unit Unit), ⟨-11/10, [0, 2], (), none⟩] =
        some (mx, rest) ∧
      [(⟨-1/10, [0], (), none⟩ : Hyp ℚ Unit Unit)] =
        sortAscBy Hyp.score
          ([(⟨-1/10, [0], (), none⟩ : Hyp ℚ Unit Unit)].filter
            (fun x => decide (mx.score < x.score))) ∧
      (2 ≤ [(⟨-1/10, [0], (), none⟩ : Hyp ℚ Unit Unit)].length →
        defaultFrameLoop overM 0 2 2 10 [initHyp] [] =
          some [(⟨-1/10, [0], (), none⟩ : Hyp ℚ Unit Unit)]) ∧
      ([(⟨-1/10, [0], (), none⟩ : Hyp ℚ Unit Unit)].length < 2 →
        defaultFrameLoop overM 0 2 2 10 [initHyp] [] =
          defaultFrameLoop overM 0 2 2 9
            [⟨-1, [0, 1], (), none⟩, ⟨-11/10, [0, 2], (), none⟩]
            [⟨-1/10, [0], (), none⟩]) := by
  exact default_frame_loop_stop overM 0 2 2 9 [initHyp] []
    [⟨-1, [0, 1], (), none⟩, ⟨-11/10, [0, 2], (), none⟩]
    [⟨-1/10, [0], (), none⟩] [⟨-1/10, [0], (), none⟩]
    (by with_unfolding_all rfl)

section ArgmaxLemmas

variable {α β : Type}

/-- pyMax keeps its accumulator when no later element strictly beats it. -/
theorem pyMax_no_replace [LinearOrder β] (key : α → β) :
    ∀ (l : List α) (b : α), (∀ a ∈ l, ¬ key b < key a) → pyMax key b l = b := by
  intro l
  induction l with
  | nil => intro b _; rfl
  | cons a l ih =>
    intro b h
    rw [pyMax, if_neg (h a (by simp))]
    exact ih b (fun x hx => h x (by simp [hx]))

/-- pyMax returns the element with the strictly maximal key when the
accumulator is below it and every other list element is below it. -/
theorem pyMax_finds_strict [LinearOrder β] (key : α → β) (b2 : α) :
    ∀ (l : List α) (b : α), b2 ∈ l → key b < key b2 →
      (∀ a ∈ l, a = b2 ∨ key a < key b2) → pyMax key b l = b2 := by
  intro l
  induction l with
  | nil => intro b hmem; simp at hmem
  | cons a l ih =>
    intro b hmem hb hall
    rw [pyMax]
    rcases hall a (by simp) with ha | ha
    · subst ha
      rw [if_pos hb]
      apply pyMax_no_replace
      intro x hx
      rcases hall x (by simp [hx]) with h | h
      · subst h; exact lt_irrefl _
      · exact lt_asymm h
    · have hmem2 : b2 ∈ l := by
        rcases List.mem_cons.1 hmem with h | h
        · exact absurd ha (by rw [h]; exact lt_irrefl _)
        · exact h
      by_cases hba : key b < key a
      · rw [if_pos hba]
        exact ih a hmem2 ha (fun x hx => hall x (by simp [hx]))
      · rw [if_neg hba]
        exact ih b hmem2 hb (fun x hx => hall x (by simp [hx]))

/-- torch.max returns the blank entry when it is the strict maximum of the
vector. -/
theorem argmaxN_strict {S : Type} [LinearOrder S] (n i0 : Nat) (f : Nat → S)
    (h0 : i0 < n) (hstrict : ∀ j, j < n → j ≠ i0 → f j < f i0) :
    argmaxN n f = (f i0, i0) := by
  cases n with
  | zero => omega
  | succ m =>
    have hmap : (List.range (m + 1)).map (fun i => (f i, i)) =
        (f 0, 0) :: (List.range m).map (fun i => (f (i + 1), i + 1)) := by
      rw [List.range_succ_eq_map, List.map_cons, List.map_map]
      rfl
    rw [argmaxN, hmap]
    simp only []
    by_cases hi0 : i0 = 0
    · subst hi0
      apply pyMax_no_replace
      intro p hp
      rcases List.mem_map.1 hp with ⟨i, hi, hpi⟩
      subst hpi
      have him : i < m := List.mem_range.1 hi
      exact lt_asymm (hstrict (i + 1) (by omega) (by omega))
    · apply pyMax_finds_strict
      · rcases Nat.exists_eq_succ_of_ne_zero hi0 with ⟨j0, hj⟩
        subst hj
        exact List.mem_map.2 ⟨j0, List.mem_range.2 (by omega), rfl⟩
      · exact hstrict 0 (by omega) (Ne.symm hi0)
      · intro p hp
        rcases List.mem_map.1 hp with ⟨i, hi, hpi⟩
        subst hpi
        by_cases hii : i + 1 = i0
        · left; rw [hii]
        · right; exact hstrict (i + 1) (by have := List.mem_range.1 hi; omega) hii

/-- Folding a function that fixes the accumulator over any list returns the
accumulator. -/
theorem foldl_fix {α2 β2 : Type} (f : α2 → β2 → α2) (a : α2) :
    ∀ l : List β2, (∀ x ∈ l, f a x = a) → l.foldl f a = a := by
  intro l
  induction l with
  | nil => intro _; rfl
  | cons x l ih =>
    intro h
    rw [List.foldl_cons, h x (by simp)]
    exact ih (fun y hy => h y (by simp [hy]))

end ArgmaxLemmas

/-- C5 (amended): when the oracle makes blank the strict argmax on every
frame, greedy_search returns exactly the initial blank-only hypothesis:
label sequence [blank_id] and score 0.  (Blank log-probabilities are not
accumulated by the source: the score only changes on non-blank
extensions.) -/
theorem greedy_all_blank [LinearOrderedField S] (M : BST S σ Λ δ) (T : Nat)
    (hbv : M.blank_id < M.vocab_size)
    (hstrict : ∀ t, t < T → ∀ j, j < M.vocab_size → j ≠ M.blank_id →
      M.logp t (M.dec_of [M.blank_id]) j < M.logp t (M.dec_of [M.blank_id]) M.blank_id) :
    greedy_search M T = [⟨0, [M.blank_id], M.st_init, none⟩] := by
  have hstep : ∀ x ∈ List.range T,
      greedyStep M (⟨0, [M.blank_id], M.st_init, none⟩,
        M.dec_of [M.blank_id], M.st_of [M.blank_id]) x =
      (⟨0, [M.blank_id], M.st_init, none⟩,
        M.dec_of [M.blank_id], M.st_of [M.blank_id]) := by
    intro x hx
    have harg : argmaxN M.vocab_size (M.logp x (M.dec_of [M.blank_id])) =
        (M.logp x (M.dec_of [M.blank_id]) M.blank_id, M.blank_id) :=
      argmaxN_strict M.vocab_size M.blank_id _ hbv
        (hstrict x (List.mem_range.1 hx))
    simp [greedyStep, harg]
  simp only [greedy_search]
  rw [foldl_fix _ _ _ hstep]

/-- Concrete oracle with blank strictly dominant: one vector
(-0.1, -2, -3) on every frame. -/
def blankM : BST ℚ Unit Unit Unit :=
  { scenarioM with
    logp := fun _ _ k => if k = 0 then -1/10 else if k = 1 then -2 else -3 }

/-- C5, counterexample: with the blankM oracle on a single frame, greedy
search returns the blank-only hypothesis with score 0, not the sum of the
per-frame blank log-probabilities, which here is -1/10. -/
theorem greedy_blank_score_not_sum :
    (greedy_search blankM 1).map proj = [([0], 0)] ∧
    blankM.logp 0 (blankM.dec_of [0]) 0 = -1/10 ∧
    ¬ ((0 : ℚ) = -1/10) := by
  refine ⟨by with_unfolding_all rfl, by with_unfolding_all rfl,
    by with_unfolding_all decide⟩

/-- C5, witness: the amended statement applied to the blankM oracle over
three frames, hypotheses discharged by computation. -/
theorem greedy_all_blank_witness :
    greedy_search blankM 3 = [⟨0, [0], (), none⟩] :=
  greedy_all_blank blankM 3 (by with_unfolding_all decide)
    (by with_unfolding_all decide)

/-- C6 (amended): the ALSD outer loop iterates exactly
t_max + min(configured u_max, t_max - 1) times (one more than the
t_max + u_max - 1 steps the claim states), and a configured u_max of at
least t_max - 1 is clamped silently: the whole search behaves exactly as
with u_max = t_max - 1, with no error. -/
theorem alsd_steps_and_silent_clamp :
    (∀ u t : Nat, alsdSteps u t = t + min u (t - 1)) ∧
    (∀ (S : Type) [LinearOrderedField S] (σ2 Λ2 δ2 : Type) (M : BST S σ2 Λ2 δ2)
      (t_max : Nat), t_max - 1 ≤ M.u_max →
      alsdSteps M.u_max t_max = t_max + (t_max - 1) ∧
      align_length_sync_decoding M t_max =
        align_length_sync_decoding { M with u_max := t_max - 1 } t_max) := by
  refine ⟨fun u t => rfl, ?_⟩
  intro S _ σ2 Λ2 δ2 M t_max h
  have hmin : min M.u_max (t_max - 1) = t_max - 1 := min_eq_right h
  have hsteps : alsdSteps M.u_max t_max =
      alsdSteps ({ M with u_max := t_max - 1 } : BST S σ2 Λ2 δ2).u_max t_max := by
    simp [alsdSteps, hmin]
  refine ⟨by simp [alsdSteps, hmin], ?_⟩
  have h2 : alsdFull M t_max =
      alsdFull ({ M with u_max := t_max - 1 } : BST S σ2 Λ2 δ2) t_max := by
    simp only [alsdFull]
    rw [hsteps]
    with_unfolding_all rfl
  simp only [align_length_sync_decoding]
  rw [h2]

/-- C6, counterexample: with t_max = 2 frames and a configured u_max of 50
(as in the concrete scenario configuration), the ALSD loop bound is
2 + min(50, 1) = 3 iterations, not the t_max + u_max - 1 = 2 the claim
states. -/
theorem alsd_steps_off_by_one :
    alsdSteps scenarioM.u_max 2 = 3 ∧
    2 + min scenarioM.u_max (2 - 1) - 1 = 2 ∧
    (3 : Nat) ≠ 2 := by
  refine ⟨by with_unfolding_all rfl, by with_unfolding_all rfl, by decide⟩

/-- C6, witness: the clamping part applied to the scenario oracle with
t_max = 2: the run with u_max = 50 equals the run with u_max = 1. -/
theorem alsd_silent_clamp_witness :
    alsdSteps scenarioM.u_max 2 = 2 + (2 - 1) ∧
    align_length_sync_decoding scenarioM 2 =
      align_length_sync_decoding { scenarioM with u_max := 2 - 1 } 2 :=
  alsd_steps_and_silent_clamp.2 ℚ Unit Unit Unit scenarioM 2
    (by with_unfolding_all decide)

/-- The N-best selector leaves a single hypothesis alone when at least one
result is requested. -/
theorem sort_nbest_singleton {α : Type} {S : Type} [LinearOrderedField S]
    (sn : Bool) (nbest : Nat) (sc : α → S) (len : α → Nat) (x : α)
    (h : 1 ≤ nbest) : sort_nbest sn nbest sc len [x] = [x] := by
  rw [sort_nbest, sortDescBy, List.mergeSort_singleton]
  exact List.take_of_length_le (by simpa using h)

/-- C7: on an empty encoder input (zero frames) every search algorithm
terminates and returns the initial blank-only hypothesis with score 0
(for any fuel, and any configuration requesting at least one result). -/
theorem empty_input_returns_blank_hypothesis (S : Type) [LinearOrderedField S]
    (σ2 Λ2 δ2 : Type) [Inhabited δ2] (M : BST S σ2 Λ2 δ2) (fuel : Nat)
    (h : 1 ≤ M.nbest) :
    (greedy_search M 0).map proj = [([M.blank_id], 0)] ∧
    (default_beam_search M fuel 0).map (List.map proj) = some [([M.blank_id], 0)] ∧
    (time_sync_decoding M 0).map proj = [([M.blank_id], 0)] ∧
    (align_length_sync_decoding M 0).map proj = [([M.blank_id], 0)] ∧
    (nsc_beam_search M 0).map projN = [([M.blank_id], 0)] := by
  refine ⟨rfl, ?_, ?_, ?_, ?_⟩
  · simp only [default_beam_search, List.range_zero, List.foldlM_nil]
    rw [show ((pure [(⟨0, [M.blank_id], M.st_init, none⟩ : Hyp S σ2 Λ2)] :
        Option (List (Hyp S σ2 Λ2)))) =
      some [⟨0, [M.blank_id], M.st_init, none⟩] from rfl]
    rw [Option.map_some']
    rw [sort_nbest_singleton _ _ _ _ _ h]
    rfl
  · simp only [time_sync_decoding, tsdB, List.range_zero, List.foldl_nil]
    rw [sort_nbest_singleton _ _ _ _ _ h]
    rfl
  · have hsteps : alsdSteps M.u_max 0 = 0 := by simp [alsdSteps]
    simp only [align_length_sync_decoding, alsdFull, hsteps, List.range_zero,
      List.foldl_nil, List.isEmpty_nil, Bool.not_true]
    rfl
  · simp only [nsc_beam_search, nscKept, List.range_zero, List.foldl_nil]
    rw [sort_nbest_singleton _ _ _ _ _ h]
    rfl

/-- C7, witness: the empty-input statement applied to the concrete scenario
oracle. -/
theorem empty_input_returns_blank_hypothesis_witness :
    (greedy_search scenarioM 0).map proj = [([0], 0)] ∧
    (default_beam_search scenarioM 5 0).map (List.map proj) = some [([0], 0)] ∧
    (time_sync_decoding scenarioM 0).map proj = [([0], 0)] ∧
    (align_length_sync_decoding scenarioM 0).map proj = [([0], 0)] ∧
    (nsc_beam_search scenarioM 0).map projN = [([0], 0)] :=
  empty_input_returns_blank_hypothesis ℚ Unit Unit Unit scenarioM 5
    (by with_unfolding_all decide)

/-- C8 (amended): a beam size of at most 1 silently selects greedy search
whatever the search type is; for a beam size of at least 2, an unknown
search type makes construction fail immediately with the
NotImplementedError configuration error, and the four known search types
select their algorithms. -/
theorem select_search_algorithm_spec :
    (∀ (bs : Int) (st : String), bs ≤ 1 →
      selectSearchAlgorithm bs st = Except.ok SearchAlg.greedy) ∧
    (∀ (bs : Int) (st : String), 2 ≤ bs →
      st ≠ "default" → st ≠ "tsd" → st ≠ "alsd" → st ≠ "nsc" →
      selectSearchAlgorithm bs st = Except.error ()) ∧
    (∀ bs : Int, 2 ≤ bs →
      selectSearchAlgorithm bs "default" = Except.ok SearchAlg.defaultBeam ∧
      selectSearchAlgorithm bs "tsd" = Except.ok SearchAlg.tsd ∧
      selectSearchAlgorithm bs "alsd" = Except.ok SearchAlg.alsd ∧
      selectSearchAlgorithm bs "nsc" = Except.ok SearchAlg.nsc) := by
  refine ⟨?_, ?_, ?_⟩
  · intro bs st h
    simp [selectSearchAlgorithm, h]
  · intro bs st h h1 h2 h3 h4
    have hb : ¬ bs ≤ 1 := by omega
    simp [selectSearchAlgorithm, hb, h1, h2, h3, h4]
  · intro bs h
    have hb : ¬ bs ≤ 1 := by omega
    refine ⟨?_, ?_, ?_, ?_⟩ <;> simp [selectSearchAlgorithm, hb]

/-- C8, counterexample: with beam size 1 (which is at least 1) and an
unknown search type, construction does not fail: it succeeds and selects
greedy search. -/
theorem beam_size_one_ignores_search_type :
    selectSearchAlgorithm 1 "unknown" = Except.ok SearchAlg.greedy ∧
    (1 : Int) ≥ 1 ∧
    Except.ok SearchAlg.greedy ≠ (Except.error () : Except Unit SearchAlg) := by
  refine ⟨by with_unfolding_all rfl, by decide,
    fun hcontra => Except.noConfusion hcontra⟩

/-- C8, witness: the selection statement applied at concrete arguments. -/
theorem select_search_algorithm_spec_witness :
    selectSearchAlgorithm 0 "unknown" = Except.ok SearchAlg.greedy ∧
    selectSearchAlgorithm 7 "unknown" = Except.error () ∧
    selectSearchAlgorithm 7 "alsd" = Except.ok SearchAlg.alsd := by
  refine ⟨select_search_algorithm_spec.1 0 "unknown" (by decide),
    select_search_algorithm_spec.2.1 7 "unknown" (by decide) (by decide)
      (by decide) (by decide) (by decide),
    (select_search_algorithm_spec.2.2 7 (by decide)).2.2.1⟩

/-- The NSC state refresh never changes the score. -/
theorem nscRefresh_score [LinearOrderedField S] [Inhabited δ] (M : BST S σ Λ δ)
    (v : NSCHyp S σ Λ δ) : (nscRefresh M v).score = v.score := by
  rw [nscRefresh]
  by_cases hu : M.use_lm <;> simp [hu]

/-- C9: on the final expansion round of each NSC frame, the extra blank
log-probability term is added to the score of each surviving V hypothesis
exactly when nstep is different from 1: with nstep = 1 the score of a
survivor is unchanged by the last-round update, and with nstep not 1 it
grows by the blank log-probability at the refreshed decoder output.  The
last round of nscRound applies this update to every survivor of the
truncated, duplicate-stripped V set. -/
theorem nsc_final_blank_addition :
    (∀ (S : Type) [LinearOrderedField S] (σ2 Λ2 δ2 : Type) [Inhabited δ2]
      (M : BST S σ2 Λ2 δ2) (t : Nat) (v : NSCHyp S σ2 Λ2 δ2),
      (M.nstep = 1 → (nscLastUpdate M t v).score = v.score) ∧
      (M.nstep ≠ 1 →
        (nscLastUpdate M t v).score = v.score + M.logp t (M.dec_of v.label_seq) 0)) ∧
    (∀ (S : Type) [LinearOrderedField S] (σ2 Λ2 δ2 : Type) [Inhabited δ2]
      (M : BST S σ2 Λ2 δ2) (t beam beam_k n : Nat)
      (st : List (NSCHyp S σ2 Λ2 δ2) × List (NSCHyp S σ2 Λ2 δ2) ×
        List (NSCHyp S σ2 Λ2 δ2)),
      ¬ n < M.nstep - 1 →
      (nscRound M t beam beam_k st n).2.2 =
        ((substract (sortDescBy (fun h2 => h2.score)
            (st.2.2 ++ st.1.flatMap (fun h2 =>
              (topk beam_k (M.vocab_size - 1)
                  (fun j => M.logp t (lastDecOut h2) (j + 1))).map
                (fun vk => nscChildExt M h2 vk.1 (vk.2 + 1))))) st.1).take beam).map
          (nscLastUpdate M t)) := by
  constructor
  · intro S _ σ2 Λ2 δ2 _ M t v
    constructor
    · intro h1
      rw [nscLastUpdate, if_neg (not_not_intro h1)]
      exact nscRefresh_score M v
    · intro h1
      rw [nscLastUpdate, if_pos h1, nscRefresh_score]
  · intro S _ σ2 Λ2 δ2 _ M t beam beam_k n st hn
    simp only [nscRound, if_neg hn]

/-- C9, witness: the last-round update applied to a concrete NSC
hypothesis, under the scenario configuration (nstep = 1) and under the
same configuration with nstep = 2. -/
theorem nsc_final_blank_addition_witness :
    (nscLastUpdate scenarioM 0 (⟨⟨-1, [0, 1], (), none⟩, [()], none⟩ :
        NSCHyp ℚ Unit Unit Unit)).score = -1 ∧
    (nscLastUpdate { scenarioM with nstep := 2 } 0
        (⟨⟨-1, [0, 1], (), none⟩, [()], none⟩ : NSCHyp ℚ Unit Unit Unit)).score =
      -1 + scenarioM.logp 0 () 0 := by
  constructor
  · exact ((nsc_final_blank_addition.1 ℚ Unit Unit Unit scenarioM 0
      ⟨⟨-1, [0, 1], (), none⟩, [()], none⟩).1 (by with_unfolding_all rfl))
  · exact ((nsc_final_blank_addition.1 ℚ Unit Unit Unit { scenarioM with nstep := 2 } 0
      ⟨⟨-1, [0, 1], (), none⟩, [()], none⟩).2 (by with_unfolding_all decide))

/-- C10: in all four beam search algorithms the blank-extension candidate
carries the decoder state handle and LM state handle of its parent
unchanged, with the label sequence copied and only the score changed by the
blank log-probability; non-blank extensions are the ones that replace the
decoder state handle by the fresh handle returned by the scoring call for
the parent (immediately in default, TSD and ALSD, and at the V-refresh step
in NSC, whose candidates first copy the parent handles) and, when an LM is
in use, replace the LM state handle by the fresh LM prediction handle. -/
theorem blank_extension_preserves_state_handles (S : Type)
    [LinearOrderedField S] (σ2 Λ2 δ2 : Type) [Inhabited δ2]
    (M : BST S σ2 Λ2 δ2) (bl v : S) (k : Nat)
    (h : Hyp S σ2 Λ2) (hn : NSCHyp S σ2 Λ2 δ2) :
    ((blankExtHyp bl h).dec_state = h.dec_state ∧
      (blankExtHyp bl h).lm_state = h.lm_state ∧
      (blankExtHyp bl h).label_seq = h.label_seq ∧
      (blankExtHyp bl h).score = h.score + bl) ∧
    ((nscBlankExt bl hn).dec_state = hn.dec_state ∧
      (nscBlankExt bl hn).lm_state = hn.lm_state ∧
      (nscBlankExt bl hn).dec_out = hn.dec_out ∧
      (nscBlankExt bl hn).lm_scores = hn.lm_scores ∧
      (nscBlankExt bl hn).label_seq = hn.label_seq ∧
      (nscBlankExt bl hn).score = hn.score + bl) ∧
    ((childExtHyp M h v k).dec_state = M.st_of h.label_seq ∧
      (childExtHyp M h v k).label_seq = h.label_seq ++ [k] ∧
      (childExtHyp M h v k).lm_state =
        (if M.use_lm then some (M.lm_predict h.lm_state h.label_seq).1
         else h.lm_state)) ∧
    ((nscChildExt M hn v k).dec_state = hn.dec_state ∧
      (nscChildExt M hn v k).lm_state = hn.lm_state ∧
      (nscChildExt M hn v k).dec_out = hn.dec_out ∧
      (nscChildExt M hn v k).label_seq = hn.label_seq ++ [k]) ∧
    ((nscRefresh M hn).dec_state = M.st_of hn.label_seq ∧
      (nscRefresh M hn).lm_state =
        (if M.use_lm then some (M.lm_predict hn.lm_state hn.label_seq).1
         else hn.lm_state)) := by
  refine ⟨⟨rfl, rfl, rfl, rfl⟩, ⟨rfl, rfl, rfl, rfl, rfl, rfl⟩, ?_,
    ⟨rfl, rfl, rfl, rfl⟩, ?_⟩
  · by_cases hu : M.use_lm <;> simp [childExtHyp, hu]
  · by_cases hu : M.use_lm <;> simp [nscRefresh, hu]

end Espnet
